import Mathlib

/-!
Verification of `sherpa/bin/streaming_pruned_transducer_statelessX/streaming_server.py`.

This file gives a shallow embedding of the server's core logic:
the batching scheduler (`stream_consumer_task`), admission control
(`process_request`), handler lifecycle (`handle_connection`), the per-session
protocol loop (`handle_connection_impl`), startup validation (`main` and
`StreamingServer.__init__`), and message decoding (`recv_audio_samples`).

The repository files `stream.py` and `beam_search.py` (the `Stream` class and
the beam-search collaborators) are part of the same repository but are not in
the sources given here; operations coming from them are modelled from the
specification and marked `Modelled from the spec` in their doc comments.
-/

namespace Sherpa

/-! ## Batching scheduler (`StreamingServer.stream_consumer_task`, lines 400-434,
     and `compute_and_decode`, lines 436-450) -/

/-- A pending decode request as it sits on `self.stream_queue`: the pair
`(stream, future)` enqueued by `compute_and_decode`.  `fid` identifies the
future; `featLen` is `len(stream.features)` at the time the scheduler
processes it (the owning handler is suspended, so it cannot change in
between). -/
structure Req where
  fid : Nat
  featLen : Nat
deriving Repr, DecidableEq

/-- The configuration the scheduler loop reads: `self.chunk_length_pad`,
`self.max_batch_size`, and `self.max_wait_ms` (milliseconds, a Python float,
modelled as a rational). -/
structure SchedConfig where
  chunk_length_pad : Nat
  max_batch_size : Nat
  max_wait_ms : Rat
deriving Repr, DecidableEq

/-- The inner drain loop of `stream_consumer_task` (lines 409-420):

```
batch = []
try:
    while len(batch) < self.max_batch_size:
        item = self.stream_queue.get_nowait()
        assert len(item[0].features) >= self.chunk_length_pad, ...
        batch.append(item)
except asyncio.QueueEmpty:
    pass
```

Returns `(batch, remaining queue, ok)`.  `ok = false` means the `assert`
fired on a dequeued item: that item has already been removed from the queue
but is not appended to the batch, and the `AssertionError` propagates (it is
not an `asyncio.QueueEmpty`, so the `except` clause does not catch it). -/
def drainBatch (clp maxB : Nat) : List Req → List Req → List Req × List Req × Bool
  | batch, [] => (batch, [], true)
  | batch, r :: rest =>
    if batch.length < maxB then
      if clp ≤ r.featLen then drainBatch clp maxB (batch ++ [r]) rest
      else (batch, rest, false)
    else (batch, r :: rest, true)

/-- Observable state of the scheduler: the shared queue (FIFO), the log of
batches handed to `loop.run_in_executor` (in order), the future ids on which
`set_result` has been called (in order), the log of `asyncio.sleep` durations
in seconds, and whether the consumer task is still running (it dies if the
body of its `while True` loop raises, since nothing catches the exception). -/
structure SchedState where
  queue : List Req
  batches : List (List Req)
  completed : List Nat
  sleeps : List Rat
  alive : Bool
deriving Repr, DecidableEq

/-- One iteration of the `while True` loop of `stream_consumer_task`
(lines 404-434).  `infOk` tells whether the
`self.beam_search.process` call run in the executor returns normally
(`true`) or raises (`false`).  If it raises, the `await loop.run_in_executor`
raises at line 425, so the `for f in future_list: f.set_result(None)` loop at
lines 432-434 never runs and the unhandled exception kills the task.
A dead task performs no further iterations. -/
def stream_consumer_step (cfg : SchedConfig) (infOk : Bool) (st : SchedState) :
    SchedState :=
  if st.alive then
    if st.queue.isEmpty then
      { st with sleeps := st.sleeps ++ [cfg.max_wait_ms / 1000] }
    else
      let d := drainBatch cfg.chunk_length_pad cfg.max_batch_size [] st.queue
      if d.2.2 then
        if infOk then
          { st with
            queue := d.2.1
            batches := st.batches ++ [d.1]
            completed := st.completed ++ d.1.map Req.fid }
        else
          { st with queue := d.2.1, batches := st.batches ++ [d.1], alive := false }
      else
        { st with queue := d.2.1, alive := false }
  else st

/-- Events of a scheduler trace: an enqueue performed by some session's
`compute_and_decode` (line 449, `await self.stream_queue.put((stream, future))`),
or one iteration of the consumer loop with the given inference outcome.
Enqueues from different sessions may interleave arbitrarily with scheduler
iterations. -/
inductive SEv
  | enq (r : Req)
  | step (infOk : Bool)
deriving Repr, DecidableEq

/-- Run a trace of enqueue/scheduler-iteration events against a scheduler
state.  `asyncio.Queue.put` succeeds regardless of the consumer task's
health. -/
def runSched (cfg : SchedConfig) : List SEv → SchedState → SchedState
  | [], st => st
  | SEv.enq r :: tr, st => runSched cfg tr { st with queue := st.queue ++ [r] }
  | SEv.step ok :: tr, st => runSched cfg tr (stream_consumer_step cfg ok st)

/-- The future ids enqueued by a trace, in order. -/
def enqueuedIds : List SEv → List Nat
  | [] => []
  | SEv.enq r :: tr => r.fid :: enqueuedIds tr
  | SEv.step _ :: tr => enqueuedIds tr

/-- Scheduler state at server start: empty queue, nothing submitted or
completed, consumer task running. -/
def initSched : SchedState := ⟨[], [], [], [], true⟩

/-- The request carried by an enqueue event. -/
def enqOf : SEv → Option Req
  | SEv.enq r => some r
  | SEv.step _ => none

/-- Every request enqueued by the trace satisfies the scheduler's feature
assertion. -/
@[reducible]
def traceAssertOk (clp : Nat) (tr : List SEv) : Prop :=
  ∀ r ∈ tr.filterMap enqOf, clp ≤ r.featLen

/-- Every `beam_search.process` call in the trace returns normally. -/
@[reducible]
def traceStepsOk (tr : List SEv) : Prop := SEv.step false ∉ tr

/-- A small concrete trace used to instantiate the scheduler theorems:
three sessions enqueue, the consumer drains in two iterations. -/
def wTrace : List SEv :=
  [SEv.enq ⟨0, 8⟩, SEv.enq ⟨1, 9⟩, SEv.step true, SEv.enq ⟨2, 8⟩, SEv.step true]

/-! ## Connection manager (`StreamingServer.process_request`, lines 452-481,
     and `handle_connection`, lines 516-538) -/

/-- `StreamingServer.process_request`.  `lookup` is the external
`HttpServer.process_request` collaborator returning
`(found, response, mime_type)`.  The result is the updated
`current_active_connections` together with the early response
(`none` lets the websocket upgrade proceed).  Status codes are the numeric
values of `http.HTTPStatus.OK / NOT_FOUND / SERVICE_UNAVAILABLE`. -/
def process_request (lookup : String → Bool × String × String)
    (max_active_connections : Int) (request_headers : List String)
    (path : String) (current_active_connections : Int) :
    Int × Option (Nat × List (String × String) × String) :=
  if ("sec-websocket-key") ∉ request_headers then
    let path1 := if path = "/" then ("/index.html") else path
    let r := lookup path1
    let status := if r.1 then 200 else 404
    (current_active_connections, some (status, [("Content-Type", r.2.2)], r.2.1))
  else
    if current_active_connections < max_active_connections then
      (current_active_connections + 1, none)
    else
      (current_active_connections,
        some (503, [("Hint", "The server is overloaded. Please retry later.")],
          "The server is busy. Please retry later."))

/-- How a run of `handle_connection_impl` can end, as seen by
`handle_connection`: normal return, a
`websockets.exceptions.ConnectionClosedError`, or any other exception. -/
inductive PyExn
  | connectionClosedError
  | otherError
deriving Repr, DecidableEq

/-- `StreamingServer.handle_connection` (lines 516-538):

```
try:
    await self.handle_connection_impl(socket)
except websockets.exceptions.ConnectionClosedError:
    logging.info(...)
finally:
    self.current_active_connections -= 1
```

Input: the exceptional outcome of `handle_connection_impl` (`none` = normal
return) and the current connection counter.  Output: the exception escaping
`handle_connection` (the `except` clause swallows
`ConnectionClosedError`; the `finally` block runs on every path) and the new
counter value. -/
def handle_connection (implExn : Option PyExn) (current_active_connections : Int) :
    Option PyExn × Int :=
  let escaping : Option PyExn :=
    match implExn with
    | some PyExn.connectionClosedError => none
    | e => e
  (escaping, current_active_connections - 1)

/-! ## Startup validation (`main`, lines 699-703, and
     `StreamingServer.__init__`, lines 331-349) -/

/-- What a path names on the filesystem, as tested by
`pathlib.Path.is_file` / `is_dir`. -/
inductive FileKind
  | file
  | dir
  | absent
deriving Repr, DecidableEq

/-- The decoding methods accepted by the dispatch in
`StreamingServer.__init__` (lines 333-349): anything starting with
`fast_beam_search`, or exactly `greedy_search` or `modified_beam_search`. -/
def supported_decoding_method (m : String) : Bool :=
  m.startsWith ("fast_beam_search") || m = "greedy_search"
    || m = "modified_beam_search"

/-- The fatal startup checks, in program order: `main` raises `ValueError` if
a configured certificate is not an existing file (line 699) or if the
document root is not a directory (line 702); `StreamingServer.__init__`
raises `ValueError` for an unsupported decoding method (line 347).  All of
them run before the server begins serving (`asyncio.run(server.run(port))`
at line 723). -/
def startup_checks (kind : String → FileKind) (certificate : Option String)
    (doc_root : String) (decoding_method : String) : Except String Unit :=
  let init_check : Except String Unit :=
    if supported_decoding_method decoding_method then Except.ok ()
    else Except.error ("Decoding method " ++ decoding_method ++ " is not supported.")
  let doc_root_check : Except String Unit :=
    if kind doc_root = FileKind.dir then init_check
    else Except.error ("Directory " ++ doc_root ++ " does not exist")
  match certificate with
  | some c =>
    if kind c = FileKind.file then doc_root_check
    else Except.error (c ++ " does not exist")
  | none => doc_root_check

/-! ## Per-session stream state and protocol handler
     (`StreamingServer.handle_connection_impl`, lines 540-630)

The `Stream` class and the beam-search objects live in `stream.py` and
`beam_search.py`, files of this repository that are not among the given
sources; their operations are modelled from the specification's data model
(spec section 3) and collaborator contracts (spec sections 4.2 and 4.4). -/

/-- Server parameters relevant to the handler.  `chunk_size` is
`--decode-chunk-size` (frames after subsampling); `self.chunk_length`
(frames before subsampling) is `chunk_size * subsampling_factor` per the
spec's glossary of the subsampling factor, and
`self.chunk_length_pad = self.chunk_length + pad_length` (line 316). -/
structure Config where
  chunk_size : Nat
  subsampling_factor : Nat
  pad_length : Nat
  decoding_method : String
deriving Repr, DecidableEq

/-- `self.chunk_length`: frames before subsampling consumed per decode
cycle. -/
def Config.chunk_length (c : Config) : Nat := c.chunk_size * c.subsampling_factor

/-- `self.chunk_length_pad = self.chunk_length + self.model.pad_length`
(line 316): the decode-ready threshold on buffered feature frames. -/
def Config.chunk_length_pad (c : Config) : Nat := c.chunk_length + c.pad_length

/-- Modelled from the spec: the per-session `Stream` state of `stream.py`
(spec section 3).  A feature frame is abstracted to an integer, `0` standing
for a zero-valued (padding) frame.  `frame_offset` counts frames already
consumed by completed decode cycles, in after-subsampling units (the handler
multiplies it by the subsampling factor when emitting a message, lines 584
and 614).  The opaque `decoder_state` handle is omitted: the core never
interprets it. -/
structure Stream where
  features : List Int
  frame_offset : Nat
  segment : Nat
  timestamps : List Nat
  finished : Bool
deriving Repr, DecidableEq

/-- A fresh stream, as built at lines 556-560. -/
def Stream.init : Stream := ⟨[], 0, 0, [], false⟩

/-- Modelled from the spec: `stream.accept_waveform` converts raw audio to
feature frames via the external feature-extraction collaborator and appends
them to the buffer.  We take the extracted frames as the input, since
feature extraction is out of scope (spec section 1). -/
def accept_waveform (frames : List Int) (s : Stream) : Stream :=
  { s with features := s.features ++ frames }

/-- Modelled from the spec: `stream.input_finished()` marks end-of-input
(spec section 3, field `finished`). -/
def input_finished (s : Stream) : Stream := { s with finished := true }

/-- Modelled from the spec: `stream.add_tail_paddings(n)` appends `n`
trailing zero-valued frames (spec section 4.2, Draining). -/
def add_tail_paddings (n : Nat) (s : Stream) : Stream :=
  { s with features := s.features ++ List.replicate n 0 }

/-- Modelled from the spec: the effect of one decode cycle
(`beam_search.process` on this stream, reached through
`compute_and_decode`): the stream's frames and frame cursor are advanced by
exactly one chunk (spec section 4.4) — `chunk_length` buffered frames are
consumed and `frame_offset` advances by the chunk size in
after-subsampling units. -/
def decodeCycle (cfg : Config) (s : Stream) : Stream :=
  { s with
    features := s.features.drop cfg.chunk_length
    frame_offset := s.frame_offset + cfg.chunk_size }

/-- The external collaborators the handler consults, abstracted at their
interface boundary: the endpoint-detection policy and the beam-search text
and token accessors (`beam_search.get_texts` / `get_tokens`). -/
structure Collab where
  ep : Stream → Bool
  texts : Stream → String
  toks : Stream → List String

/-- Modelled from the spec: `stream.endpoint_detected(config)` applies the
endpoint policy; when it fires, the segment index increments and the
per-segment token timestamps reset (spec section 3, fields `segment` and
`timestamps`); `frame_offset` is monotonic and is not reset. -/
def endpoint_detected (cb : Collab) (s : Stream) : Bool × Stream :=
  if cb.ep s then (true, { s with segment := s.segment + 1, timestamps := [] })
  else (false, s)

/-- Modelled from the spec: `sherpa.convert_timestamp` scales token frame
indices by the subsampling factor (the real helper further converts to
seconds as floats; the claims do not depend on the time unit, so the model
keeps scaled frame counts). -/
def convert_timestamp (frames : List Nat) (subsampling_factor : Nat) : List Nat :=
  frames.map (fun f => f * subsampling_factor)

/-- An outbound result message (lines 590-598 and 620-628). -/
structure Message where
  method : String
  segment : Nat
  frame_offset : Nat
  text : String
  tokens : List String
  timestamps : List Nat
  final : Bool
deriving Repr, DecidableEq

/-- Build the message the handler sends after a decode cycle (lines 575-598):
every field is read from the stream before endpoint detection may reset it,
and `frame_offset` is `stream.frame_offset * stream.subsampling_factor`
(line 584). -/
def mkMessage (cfg : Config) (cb : Collab) (s : Stream) (final : Bool) : Message :=
  { method := cfg.decoding_method
    segment := s.segment
    frame_offset := s.frame_offset * cfg.subsampling_factor
    text := cb.texts s
    tokens := cb.toks s
    timestamps := convert_timestamp s.timestamps cfg.subsampling_factor
    final := final }

/-- One emitted message together with the stream state at emission time and
the number of decode cycles issued since the previous emitted message. -/
structure MsgRec where
  nDecodes : Nat
  state : Stream
  msg : Message
deriving Repr, DecidableEq

/-- Trace of a handler run: the stream states at each `compute_and_decode`
call (i.e. each enqueue onto the shared queue), and the emitted messages. -/
structure HandlerLog where
  enqs : List Stream
  recs : List MsgRec
deriving Repr, DecidableEq

/-- The inner decode loop of the receiving phase (lines 573-600):

```
while len(stream.features) > self.chunk_length_pad:
    await self.compute_and_decode(stream)
    hyp = ...; tokens = ...; segment = stream.segment; timestamps = ...
    frame_offset = stream.frame_offset * stream.subsampling_factor
    is_final = stream.endpoint_detected(self.online_endpoint_config)
    if is_final:
        self.beam_search.init_stream(stream)
    message = {...}
    await socket.send(json.dumps(message))
```

The loop consumes at least one frame per iteration, so a fuel of the current
feature count bounds it. -/
def chunkLoop (cfg : Config) (cb : Collab) : Nat → Stream → Stream × HandlerLog
  | 0, s => (s, ⟨[], []⟩)
  | fuel + 1, s =>
    if cfg.chunk_length_pad < s.features.length then
      let s1 := decodeCycle cfg s
      let det := endpoint_detected cb s1
      let m := mkMessage cfg cb s1 det.1
      let r := chunkLoop cfg cb fuel det.2
      (r.1, ⟨s :: r.2.enqs, ⟨1, det.2, m⟩ :: r.2.recs⟩)
    else (s, ⟨[], []⟩)

/-- The drain decode loop after `"Done"` (lines 603-604):
`while len(stream.features) > self.chunk_length_pad: await
self.compute_and_decode(stream)`.  Returns the resulting stream and the
states at each `compute_and_decode` call. -/
def drainLoopW (cfg : Config) : Nat → Stream → Stream × List Stream
  | 0, s => (s, [])
  | fuel + 1, s =>
    if cfg.chunk_length_pad < s.features.length then
      let r := drainLoopW cfg fuel (decodeCycle cfg s)
      (r.1, s :: r.2)
    else (s, [])

/-- The tail-padding step (lines 606-610):

```
if len(stream.features) > 0:
    n = self.chunk_length_pad - len(stream.features)
    stream.add_tail_paddings(n)
    await self.compute_and_decode(stream)
    stream.features = []
```
-/
def drainPad (cfg : Config) (s : Stream) : Stream × List Stream :=
  if 0 < s.features.length then
    let p := add_tail_paddings (cfg.chunk_length_pad - s.features.length) s
    let d := decodeCycle cfg p
    ({ d with features := [] }, [p])
  else (s, [])

/-- The whole drain phase after the client's `"Done"` (lines 602-630):
mark input finished, run drain decode cycles, pad-and-decode a leftover
chunk, then send one last message with `final` set to `True`
unconditionally (line 627). -/
def drainPhase (cfg : Config) (cb : Collab) (s : Stream) : Stream × HandlerLog :=
  let s0 := input_finished s
  let w := drainLoopW cfg s0.features.length s0
  let pz := drainPad cfg w.1
  let m := mkMessage cfg cb pz.1 true
  (pz.1, ⟨w.2 ++ pz.2, [⟨w.2.length + pz.2.length, pz.1, m⟩]⟩)

/-- The receiving phase (lines 564-600): for each inbound binary message,
append its extracted feature frames and run the chunk-check decode loop. -/
def receiveLoop (cfg : Config) (cb : Collab) : List (List Int) → Stream → Stream × HandlerLog
  | [], s => (s, ⟨[], []⟩)
  | frames :: audio, s =>
    let s1 := accept_waveform frames s
    let c := chunkLoop cfg cb s1.features.length s1
    let r := receiveLoop cfg cb audio c.1
    (r.1, ⟨c.2.enqs ++ r.2.enqs, c.2.recs ++ r.2.recs⟩)

/-- `StreamingServer.handle_connection_impl` (lines 540-630) on the normal
path: a fresh stream, a sequence of inbound binary audio messages (given as
their extracted feature frames), then the `"Done"` sentinel followed by the
drain phase. -/
def handle_connection_impl (cfg : Config) (cb : Collab) (audio : List (List Int)) :
    Stream × HandlerLog :=
  let r := receiveLoop cfg cb audio Stream.init
  let d := drainPhase cfg cb r.1
  (d.1, ⟨r.2.enqs ++ d.2.enqs, r.2.recs ++ d.2.recs⟩)

/-- The emitted-message records of a full handler run. -/
def runRecs (cfg : Config) (cb : Collab) (audio : List (List Int)) : List MsgRec :=
  (handle_connection_impl cfg cb audio).2.recs

/-- The stream states at each `compute_and_decode` enqueue of a full handler
run. -/
def runEnqs (cfg : Config) (cb : Collab) (audio : List (List Int)) : List Stream :=
  (handle_connection_impl cfg cb audio).2.enqs

/-- The stream after the drain decode loop of lines 603-604, before the
tail-padding step of lines 606-610. -/
def drainLoopResult (cfg : Config) (s : Stream) : Stream :=
  (drainLoopW cfg (input_finished s).features.length (input_finished s)).1

/-- A trivial concrete collaborator used to instantiate the handler
theorems: the endpoint never fires, hypotheses and token lists are empty. -/
def cbTest : Collab := ⟨fun _ => false, fun _ => "", fun _ => []⟩

/-- A small concrete configuration used to instantiate the handler
theorems: chunk size 1, subsampling factor 1, pad 1, so the decode-ready
threshold `chunk_length_pad` is 2 frames. -/
def cfgT : Config := ⟨1, 1, 1, "greedy_search"⟩

/-- A concrete input stream used to instantiate the drain theorem. -/
def sT : Stream := ⟨[1, 2, 3], 0, 0, [], false⟩

/-- `recChain cfg o recs o'` links a message log to the evolution of the
stream's frame cursor: starting from consumed-frame count `o`, each record
was emitted with the cursor advanced by `nDecodes` chunks over the previous
record, its message carries the cursor scaled by the subsampling factor, and
the run ends with cursor `o'`. -/
def recChain (cfg : Config) : Nat → List MsgRec → Nat → Prop
  | o, [], o' => o' = o
  | o, r :: rest, o' =>
    r.state.frame_offset = o + r.nDecodes * cfg.chunk_size
      ∧ r.msg.frame_offset = r.state.frame_offset * cfg.subsampling_factor
      ∧ recChain cfg r.state.frame_offset rest o'

/-! ## Receiving audio (`StreamingServer.recv_audio_samples`, lines 632-661) -/

/-- A websocket message: a text frame (a Python `str`) or a binary frame
(raw bytes). -/
inductive WsMessage
  | text (s : String)
  | binary (b : List Nat)
deriving Repr, DecidableEq

/-- Reinterpret a byte string as 32-bit little-endian words, four bytes per
sample, as `torch.frombuffer(message, dtype=torch.float32)` does.  Returns
`none` when the byte length is not a multiple of four, in which case
`frombuffer` raises. -/
def chunk4 : List Nat → Option (List (Nat × Nat × Nat × Nat))
  | [] => some []
  | b0 :: b1 :: b2 :: b3 :: rest =>
    match chunk4 rest with
    | some ws => some ((b0, b1, b2, b3) :: ws)
    | none => none
  | _ => none

/-- `StreamingServer.recv_audio_samples` (lines 632-661) after the
`await socket.recv()`: the text sentinel `"Done"` yields `None`; every other
message is handed to `torch.frombuffer(message, dtype=torch.float32)`.
A text frame is a `str` and has no buffer interface, so `frombuffer` raises
`TypeError`; a binary frame whose length is not a multiple of four raises
inside `frombuffer`.  Each sample is modelled as its four-byte group. -/
def recv_audio_samples : WsMessage → Except String (Option (List (Nat × Nat × Nat × Nat)))
  | WsMessage.text s =>
    if s = "Done" then Except.ok none
    else Except.error ("TypeError: a bytes-like object is required")
  | WsMessage.binary b =>
    match chunk4 b with
    | some samples => Except.ok (some samples)
    | none => Except.error ("ValueError: buffer length must be a multiple of element size")

/-! ## Theorems -/

/-- `torch.frombuffer` succeeds exactly on byte strings whose length is a
multiple of the four-byte element size. -/
theorem chunk4_isSome_iff (b : List Nat) : (chunk4 b).isSome = true ↔ b.length % 4 = 0 := by
  induction b using chunk4.induct with
  | case1 => simp [chunk4]
  | case2 b0 b1 b2 b3 rest ws hws ih =>
    rw [hws] at ih
    simp only [Option.isSome_some, true_iff] at ih
    simp only [chunk4, hws, Option.isSome_some, List.length_cons, true_iff]
    omega
  | case3 b0 b1 b2 b3 rest hn ih =>
    rw [hn] at ih
    simp only [Option.isSome_none, Bool.false_eq_true, false_iff] at ih
    simp only [chunk4, hn, Option.isSome_none, List.length_cons, Bool.false_eq_true,
      false_iff]
    omega
  | case4 x h1 h2 =>
    rcases x with _ | ⟨a, _ | ⟨c, _ | ⟨d, _ | ⟨e, t⟩⟩⟩⟩
    · exact absurd rfl h1
    · simp [chunk4]
    · simp [chunk4]
    · simp [chunk4]
    · exact absurd rfl (h2 a c d e t)

/-- C10: `recv_audio_samples` returns `None` exactly when the inbound message
is the text `"Done"`; any other message is reinterpreted byte-for-byte as
32-bit float samples, and a binary payload whose byte length is not a
multiple of 4 makes it raise an exception rather than yield samples. -/
theorem recv_audio_samples_spec (m : WsMessage) :
    (recv_audio_samples m = Except.ok none ↔ m = WsMessage.text ("Done"))
    ∧ (∀ b, m = WsMessage.binary b → b.length % 4 ≠ 0 →
        ∃ e, recv_audio_samples m = Except.error e)
    ∧ (∀ b, m = WsMessage.binary b → b.length % 4 = 0 →
        ∃ ws, recv_audio_samples m = Except.ok (some ws)) := by
  refine ⟨?_, ?_, ?_⟩
  · cases m with
    | text s =>
      by_cases hs : s = "Done"
      · subst hs
        simp [recv_audio_samples]
      · simp [recv_audio_samples, hs]
    | binary b =>
      cases h : chunk4 b with
      | some ws => simp [recv_audio_samples, h]
      | none => simp [recv_audio_samples, h]
  · rintro b rfl hb
    cases h : chunk4 b with
    | some ws =>
      have hiff := chunk4_isSome_iff b
      rw [h] at hiff
      simp only [Option.isSome_some, true_iff] at hiff
      exact absurd hiff hb
    | none =>
      exact ⟨"ValueError: buffer length must be a multiple of element size",
        by simp [recv_audio_samples, h]⟩
  · rintro b rfl hb
    cases h : chunk4 b with
    | some ws =>
      exact ⟨ws, by simp [recv_audio_samples, h]⟩
    | none =>
      have hiff := chunk4_isSome_iff b
      rw [h] at hiff
      simp only [Option.isSome_none, Bool.false_eq_true, false_iff] at hiff
      exact absurd hb hiff

/-- Witness for C10 at concrete messages. -/
theorem recv_audio_samples_spec_witness :
    recv_audio_samples (WsMessage.text ("Done")) = Except.ok none
    ∧ (∃ e, recv_audio_samples (WsMessage.binary [0, 1, 2]) = Except.error e)
    ∧ (∃ ws, recv_audio_samples (WsMessage.binary [0, 1, 2, 3]) = Except.ok (some ws)) := by
  refine ⟨?_, ?_, ?_⟩
  · exact (recv_audio_samples_spec (WsMessage.text ("Done"))).1.mpr rfl
  · exact (recv_audio_samples_spec (WsMessage.binary [0, 1, 2])).2.1 [0, 1, 2] rfl (by decide)
  · exact (recv_audio_samples_spec (WsMessage.binary [0, 1, 2, 3])).2.2 [0, 1, 2, 3] rfl
      (by decide)

/-- C3: for a websocket-upgrade request, `process_request` increments the
active-connection count and returns `None` when the count is strictly below
the cap, and otherwise returns a 503 response with an advisory message and
leaves the count unchanged. -/
theorem process_request_admission (lookup : String → Bool × String × String)
    (maxConn : Int) (hdrs : List String) (path : String) (current : Int)
    (hup : "sec-websocket-key" ∈ hdrs) :
    (current < maxConn →
      process_request lookup maxConn hdrs path current = (current + 1, none))
    ∧ (maxConn ≤ current →
      process_request lookup maxConn hdrs path current =
        (current,
          some (503, [("Hint", "The server is overloaded. Please retry later.")],
            "The server is busy. Please retry later."))) := by
  constructor
  · intro h
    simp [process_request, hup, h]
  · intro h
    simp [process_request, hup, not_lt.mpr h]

/-- Witness for C3: with a cap of 2, a first upgrade at count 1 is admitted
and a later upgrade at count 2 is rejected with the count unchanged. -/
theorem process_request_admission_witness :
    ("sec-websocket-key" ∈ ["sec-websocket-key"]
      ∧ process_request (fun _ => (true, "", "")) 2 ["sec-websocket-key"] ("/") 1
          = (2, none))
    ∧ process_request (fun _ => (true, "", "")) 2 ["sec-websocket-key"] ("/") 2
        = (2,
            some (503, [("Hint", "The server is overloaded. Please retry later.")],
              "The server is busy. Please retry later.")) :=
  ⟨⟨by decide,
    (process_request_admission (fun _ => (true, "", "")) 2 ["sec-websocket-key"] ("/") 1
      (by decide)).1 (by decide)⟩,
    (process_request_admission (fun _ => (true, "", "")) 2 ["sec-websocket-key"] ("/") 2
      (by decide)).2 (by decide)⟩

/-- C4: `handle_connection` decrements the active-connection counter exactly
once on every exit path of `handle_connection_impl` — normal return, a
`ConnectionClosedError` (which is caught), or any other exception (which
escapes after the `finally` block has run). -/
theorem handle_connection_decrements_once (implExn : Option PyExn) (current : Int) :
    (handle_connection implExn current).2 = current - 1
    ∧ ((handle_connection implExn current).1 = some PyExn.otherError ↔
        implExn = some PyExn.otherError) := by
  constructor
  · rfl
  · cases implExn with
    | none => simp [handle_connection]
    | some e => cases e <;> simp [handle_connection]

/-- C9: startup raises before serving exactly when a configured certificate
path is not an existing file, the document root is not a directory, or the
decoding method is unsupported. -/
theorem startup_failure_iff (kind : String → FileKind) (certificate : Option String)
    (doc_root : String) (decoding_method : String) :
    (∃ e, startup_checks kind certificate doc_root decoding_method = Except.error e)
    ↔ ((∃ c, certificate = some c ∧ kind c ≠ FileKind.file)
        ∨ kind doc_root ≠ FileKind.dir
        ∨ supported_decoding_method decoding_method = false) := by
  cases certificate with
  | none =>
    by_cases hd : kind doc_root = FileKind.dir
    · by_cases hm : supported_decoding_method decoding_method
      · simp [startup_checks, hd, hm]
      · simp [startup_checks, hd, hm]
    · simp [startup_checks, hd]
  | some c =>
    by_cases hc : kind c = FileKind.file
    · by_cases hd : kind doc_root = FileKind.dir
      · by_cases hm : supported_decoding_method decoding_method
        · simp [startup_checks, hc, hd, hm]
        · simp [startup_checks, hc, hd, hm]
      · simp [startup_checks, hc, hd]
    · simp [startup_checks, hc]

/-- C1: evidence of the code bug.  When `beam_search.process` raises on a
batch of two queued requests, the batch has been submitted but no future is
completed (both handlers stay suspended forever), the consumer task dies,
and a request enqueued afterwards is never processed by a later scheduler
iteration. -/
theorem inference_failure_never_fires_futures :
    (stream_consumer_step ⟨1, 2, 10⟩ false ⟨[⟨0, 1⟩, ⟨1, 1⟩], [], [], [], true⟩).batches
        = [[⟨0, 1⟩, ⟨1, 1⟩]]
    ∧ (stream_consumer_step ⟨1, 2, 10⟩ false ⟨[⟨0, 1⟩, ⟨1, 1⟩], [], [], [], true⟩).completed
        = []
    ∧ (stream_consumer_step ⟨1, 2, 10⟩ false ⟨[⟨0, 1⟩, ⟨1, 1⟩], [], [], [], true⟩).alive
        = false
    ∧ (runSched ⟨1, 2, 10⟩ [SEv.enq ⟨2, 1⟩, SEv.step true]
        (stream_consumer_step ⟨1, 2, 10⟩ false ⟨[⟨0, 1⟩, ⟨1, 1⟩], [], [], [], true⟩)).completed
        = [] := by
  decide

/-- When every queued request satisfies the feature assertion, the drain
loop of `stream_consumer_task` dequeues exactly the first
`max_batch_size - batch.length` requests, in order, and never raises. -/
theorem drainBatch_eq (clp maxB : Nat) :
    ∀ (q batch : List Req), (∀ r ∈ q, clp ≤ r.featLen) →
      drainBatch clp maxB batch q
        = (batch ++ q.take (maxB - batch.length), q.drop (maxB - batch.length), true) := by
  intro q
  induction q with
  | nil =>
    intro batch _
    simp [drainBatch]
  | cons r rest ih =>
    intro batch h
    by_cases hb : batch.length < maxB
    · have hr : clp ≤ r.featLen := h r (List.mem_cons_self r rest)
      have hrest : ∀ x ∈ rest, clp ≤ x.featLen := fun x hx => h x (List.mem_cons_of_mem r hx)
      have hlen : (batch ++ [r]).length = batch.length + 1 := by simp
      rw [show drainBatch clp maxB batch (r :: rest)
            = drainBatch clp maxB (batch ++ [r]) rest by simp [drainBatch, hb, hr]]
      rw [ih (batch ++ [r]) hrest, hlen]
      have hk : maxB - batch.length = (maxB - (batch.length + 1)) + 1 := by omega
      rw [hk]
      simp [List.take_succ_cons, List.drop_succ_cons, List.append_assoc]
    · have h0 : maxB - batch.length = 0 := by omega
      simp [drainBatch, hb, h0]

/-- One successful scheduler iteration neither loses nor duplicates
requests: it moves the ids of a queue segment from the queue to both the
submitted-batch log and the completed list, preserving the combined
sequences. -/
theorem consumer_step_inv (cfg : SchedConfig) (st : SchedState)
    (halive : st.alive = true)
    (hwf : ∀ r ∈ st.queue, cfg.chunk_length_pad ≤ r.featLen) :
    (stream_consumer_step cfg true st).alive = true
    ∧ (∀ r ∈ (stream_consumer_step cfg true st).queue, cfg.chunk_length_pad ≤ r.featLen)
    ∧ (stream_consumer_step cfg true st).completed
          ++ ((stream_consumer_step cfg true st).queue.map Req.fid)
        = st.completed ++ st.queue.map Req.fid
    ∧ (stream_consumer_step cfg true st).batches.flatten.map Req.fid
          ++ ((stream_consumer_step cfg true st).queue.map Req.fid)
        = st.batches.flatten.map Req.fid ++ st.queue.map Req.fid := by
  by_cases hq : st.queue.isEmpty
  · refine ⟨?_, ?_, ?_, ?_⟩ <;> simp [stream_consumer_step, halive, hq]
    exact hwf
  · have hd := drainBatch_eq cfg.chunk_length_pad cfg.max_batch_size st.queue [] hwf
    simp only [List.nil_append, List.length_nil, Nat.sub_zero] at hd
    refine ⟨?_, ?_, ?_, ?_⟩
    · simp [stream_consumer_step, halive, hq, hd]
    · simp only [stream_consumer_step, halive, hq, hd]
      simp only [if_true, Bool.false_eq_true, if_false]
      intro r hr
      exact hwf r (List.drop_subset _ _ hr)
    · simp only [stream_consumer_step, halive, hq, hd]
      simp only [if_true, Bool.false_eq_true, if_false]
      rw [List.append_assoc, ← List.map_append, List.take_append_drop]
    · simp only [stream_consumer_step, halive, hq, hd]
      simp only [if_true, Bool.false_eq_true, if_false]
      simp only [List.flatten_append, List.flatten_cons, List.flatten_nil,
        List.append_nil, List.map_append]
      rw [List.append_assoc, ← List.map_append, List.take_append_drop]

/-- Splitting a trace assertion hypothesis at an enqueue event. -/
theorem traceAssertOk_cons_enq {clp : Nat} {r : Req} {tr : List SEv}
    (h : traceAssertOk clp (SEv.enq r :: tr)) : clp ≤ r.featLen ∧ traceAssertOk clp tr := by
  simp only [traceAssertOk, List.filterMap_cons, enqOf, List.forall_mem_cons] at h
  exact h

/-- Splitting a trace assertion hypothesis at a scheduler iteration. -/
theorem traceAssertOk_cons_step {clp : Nat} {ok : Bool} {tr : List SEv}
    (h : traceAssertOk clp (SEv.step ok :: tr)) : traceAssertOk clp tr := by
  simpa only [traceAssertOk, List.filterMap_cons, enqOf] using h

/-- Invariant of the scheduler under any interleaving of enqueues and
successful iterations: the completed future ids followed by the queued ids,
and likewise the ids of all submitted batches followed by the queued ids,
both extend the corresponding initial sequences by exactly the enqueued
ids. -/
theorem runSched_inv (cfg : SchedConfig) :
    ∀ (tr : List SEv) (st : SchedState), st.alive = true →
      (∀ r ∈ st.queue, cfg.chunk_length_pad ≤ r.featLen) →
      traceAssertOk cfg.chunk_length_pad tr → traceStepsOk tr →
      (runSched cfg tr st).alive = true
      ∧ (∀ r ∈ (runSched cfg tr st).queue, cfg.chunk_length_pad ≤ r.featLen)
      ∧ (runSched cfg tr st).completed ++ ((runSched cfg tr st).queue.map Req.fid)
          = st.completed ++ st.queue.map Req.fid ++ enqueuedIds tr
      ∧ (runSched cfg tr st).batches.flatten.map Req.fid
            ++ ((runSched cfg tr st).queue.map Req.fid)
          = st.batches.flatten.map Req.fid ++ st.queue.map Req.fid ++ enqueuedIds tr := by
  intro tr
  induction tr with
  | nil =>
    intro st ha hwf _ _
    simp only [runSched, enqueuedIds, List.append_nil]
    exact ⟨ha, hwf, trivial, trivial⟩
  | cons e tr ih =>
    intro st ha hwf hA hS
    cases e with
    | enq r =>
      obtain ⟨hr, hA'⟩ := traceAssertOk_cons_enq hA
      have hS' : traceStepsOk tr := fun hm => hS (List.mem_cons_of_mem _ hm)
      have hwf' : ∀ x ∈ st.queue ++ [r], cfg.chunk_length_pad ≤ x.featLen := by
        intro x hx
        rcases List.mem_append.mp hx with h1 | h1
        · exact hwf x h1
        · simp only [List.mem_singleton] at h1
          subst h1
          exact hr
      have hrec := ih { st with queue := st.queue ++ [r] } ha hwf' hA' hS'
      simp only [runSched, enqueuedIds] at hrec ⊢
      refine ⟨hrec.1, hrec.2.1, ?_, ?_⟩
      · rw [hrec.2.2.1]
        simp [List.map_append, List.append_assoc]
      · rw [hrec.2.2.2]
        simp [List.map_append, List.append_assoc]
    | step ok =>
      have hok : ok = true := by
        cases ok
        · exact absurd (List.mem_cons_self _ _) hS
        · rfl
      subst hok
      have hA' := traceAssertOk_cons_step hA
      have hS' : traceStepsOk tr := fun hm => hS (List.mem_cons_of_mem _ hm)
      obtain ⟨sa, swf, sc, sb⟩ := consumer_step_inv cfg st ha hwf
      have hrec := ih (stream_consumer_step cfg true st) sa swf hA' hS'
      simp only [runSched, enqueuedIds] at hrec ⊢
      refine ⟨hrec.1, hrec.2.1, ?_, ?_⟩
      · rw [hrec.2.2.1, sc]
      · rw [hrec.2.2.2, sb]

/-- C2: starting from the initial scheduler state, under any interleaving of
session enqueues with scheduler iterations (all of whose inference calls
succeed and whose requests satisfy the feature assertion), the submitted
batches plus the still-queued requests contain every enqueued request
exactly once and in order; `set_result` has been called exactly once for
each batched request and never otherwise; once the queue is drained, the
completed futures are exactly the enqueued ones. -/
theorem queue_requests_drained_exactly_once (cfg : SchedConfig) (tr : List SEv)
    (hA : traceAssertOk cfg.chunk_length_pad tr) (hS : traceStepsOk tr) :
    (runSched cfg tr initSched).batches.flatten.map Req.fid
        ++ ((runSched cfg tr initSched).queue.map Req.fid) = enqueuedIds tr
    ∧ (runSched cfg tr initSched).completed
        = (runSched cfg tr initSched).batches.flatten.map Req.fid
    ∧ ((runSched cfg tr initSched).queue = [] →
        (runSched cfg tr initSched).completed = enqueuedIds tr) := by
  obtain ⟨-, -, hc, hb⟩ := runSched_inv cfg tr initSched rfl (by simp [initSched]) hA hS
  rw [show initSched.completed = [] from rfl, show initSched.queue = [] from rfl] at hc
  rw [show initSched.batches = [] from rfl, show initSched.queue = [] from rfl] at hb
  simp only [List.map_nil, List.flatten_nil, List.append_nil, List.nil_append] at hc hb
  refine ⟨hb, List.append_cancel_right (hc.trans hb.symm), ?_⟩
  intro hq
  rw [hq] at hc
  simpa using hc

/-- Witness for C2 on a concrete interleaved trace of three sessions. -/
theorem queue_requests_drained_exactly_once_witness :
    traceAssertOk (SchedConfig.mk 8 50 10).chunk_length_pad wTrace
    ∧ traceStepsOk wTrace
    ∧ ((runSched ⟨8, 50, 10⟩ wTrace initSched).batches.flatten.map Req.fid
          ++ ((runSched ⟨8, 50, 10⟩ wTrace initSched).queue.map Req.fid) = enqueuedIds wTrace
        ∧ (runSched ⟨8, 50, 10⟩ wTrace initSched).completed
            = (runSched ⟨8, 50, 10⟩ wTrace initSched).batches.flatten.map Req.fid
        ∧ ((runSched ⟨8, 50, 10⟩ wTrace initSched).queue = [] →
            (runSched ⟨8, 50, 10⟩ wTrace initSched).completed = enqueuedIds wTrace)) :=
  ⟨by decide, by decide,
    queue_requests_drained_exactly_once ⟨8, 50, 10⟩ wTrace (by decide) (by decide)⟩

/-- C5 (amended): provided `max_batch_size ≥ 1`, every batch the scheduler
submits is non-empty and holds at most `max_batch_size` requests; when the
queue is empty the iteration only sleeps for `max_wait_ms` (milliseconds,
i.e. `max_wait_ms / 1000` seconds) and re-checks; when it is non-empty the
iteration takes exactly the immediately available requests, capped at
`max_batch_size`, without waiting for more. -/
theorem consumer_batches_nonempty_bounded (cfg : SchedConfig) (st : SchedState)
    (infOk : Bool) (halive : st.alive = true)
    (hwf : ∀ r ∈ st.queue, cfg.chunk_length_pad ≤ r.featLen)
    (hB : 1 ≤ cfg.max_batch_size) :
    (st.queue = [] →
      stream_consumer_step cfg infOk st
        = { st with sleeps := st.sleeps ++ [cfg.max_wait_ms / 1000] })
    ∧ (st.queue ≠ [] →
        (stream_consumer_step cfg infOk st).batches
            = st.batches ++ [st.queue.take cfg.max_batch_size]
        ∧ st.queue.take cfg.max_batch_size ≠ []
        ∧ (st.queue.take cfg.max_batch_size).length ≤ cfg.max_batch_size
        ∧ (stream_consumer_step cfg infOk st).queue = st.queue.drop cfg.max_batch_size) := by
  constructor
  · intro hq
    simp [stream_consumer_step, halive, hq]
  · intro hq
    have hE : st.queue.isEmpty = false := by
      cases hqq : st.queue with
      | nil => exact absurd hqq hq
      | cons x xs => simp [hqq]
    have hd := drainBatch_eq cfg.chunk_length_pad cfg.max_batch_size st.queue [] hwf
    simp only [List.nil_append, List.length_nil, Nat.sub_zero] at hd
    refine ⟨?_, ?_, ?_, ?_⟩
    · cases infOk <;> simp [stream_consumer_step, halive, hE, hd]
    · intro hcontra
      rcases List.take_eq_nil_iff.mp hcontra with h | h
      · omega
      · exact hq h
    · rw [List.length_take]
      exact min_le_left _ _
    · cases infOk <;> simp [stream_consumer_step, halive, hE, hd]

/-- Witness for C5 (amended) on a concrete two-request queue with batch
cap 3. -/
theorem consumer_batches_nonempty_bounded_witness :
    (stream_consumer_step ⟨2, 3, 10⟩ true ⟨[⟨0, 2⟩, ⟨1, 5⟩], [], [], [], true⟩).batches
        = [] ++ [([⟨0, 2⟩, ⟨1, 5⟩] : List Req).take 3]
    ∧ ([⟨0, 2⟩, ⟨1, 5⟩] : List Req).take 3 ≠ []
    ∧ (([⟨0, 2⟩, ⟨1, 5⟩] : List Req).take 3).length ≤ 3
    ∧ (stream_consumer_step ⟨2, 3, 10⟩ true ⟨[⟨0, 2⟩, ⟨1, 5⟩], [], [], [], true⟩).queue
        = ([⟨0, 2⟩, ⟨1, 5⟩] : List Req).drop 3 :=
  (consumer_batches_nonempty_bounded ⟨2, 3, 10⟩ ⟨[⟨0, 2⟩, ⟨1, 5⟩], [], [], [], true⟩ true
    rfl (by decide) (by decide)).2 (by decide)

/-- Counterexample to C5 as stated: with `max_batch_size = 0` and a
non-empty queue, the scheduler drains nothing yet still submits the (empty)
batch to the executor, leaving the queue untouched. -/
theorem empty_batch_submitted_when_max_batch_size_zero :
    (stream_consumer_step ⟨8, 0, 10⟩ true ⟨[⟨0, 9⟩], [], [], [], true⟩).batches = [[]]
    ∧ (stream_consumer_step ⟨8, 0, 10⟩ true ⟨[⟨0, 9⟩], [], [], [], true⟩).queue = [⟨0, 9⟩] := by
  decide

/-- Endpoint detection never changes the buffered features. -/
theorem endpoint_detected_features (cb : Collab) (s : Stream) :
    (endpoint_detected cb s).2.features = s.features := by
  simp only [endpoint_detected]
  split <;> rfl

/-- Endpoint detection never changes the consumed-frame cursor. -/
theorem endpoint_detected_offset (cb : Collab) (s : Stream) :
    (endpoint_detected cb s).2.frame_offset = s.frame_offset := by
  simp only [endpoint_detected]
  split <;> rfl

/-- The chunk-check loop exits with at most `chunk_length_pad` buffered
frames, provided the fuel covers the current buffer length. -/
theorem chunkLoop_features_le (cfg : Config) (cb : Collab)
    (hcl : 0 < cfg.chunk_length) :
    ∀ (fuel : Nat) (s : Stream), s.features.length ≤ fuel →
      (chunkLoop cfg cb fuel s).1.features.length ≤ cfg.chunk_length_pad := by
  intro fuel
  induction fuel with
  | zero =>
    intro s hs
    simp only [chunkLoop]
    omega
  | succ n ih =>
    intro s hs
    by_cases h : cfg.chunk_length_pad < s.features.length
    · simp only [chunkLoop, h, if_true]
      apply ih
      rw [endpoint_detected_features]
      simp only [decodeCycle, List.length_drop]
      omega
    · simp only [chunkLoop, h, if_false]
      omega

/-- Every `compute_and_decode` issued by the chunk-check loop is on a stream
whose buffer strictly exceeds `chunk_length_pad`. -/
theorem chunkLoop_enqs_big (cfg : Config) (cb : Collab) :
    ∀ (fuel : Nat) (s : Stream), ∀ t ∈ (chunkLoop cfg cb fuel s).2.enqs,
      cfg.chunk_length_pad < t.features.length := by
  intro fuel
  induction fuel with
  | zero =>
    intro s t ht
    simp [chunkLoop] at ht
  | succ n ih =>
    intro s t ht
    by_cases h : cfg.chunk_length_pad < s.features.length
    · simp only [chunkLoop, h, if_true] at ht
      rcases List.mem_cons.mp ht with h1 | h1
      · subst h1
        exact h
      · exact ih _ t h1
    · simp [chunkLoop, h] at ht

/-- Each chunk-check message is emitted after exactly one decode cycle. -/
theorem chunkLoop_nDecodes (cfg : Config) (cb : Collab) :
    ∀ (fuel : Nat) (s : Stream), ∀ r ∈ (chunkLoop cfg cb fuel s).2.recs,
      r.nDecodes = 1 := by
  intro fuel
  induction fuel with
  | zero =>
    intro s r hr
    simp [chunkLoop] at hr
  | succ n ih =>
    intro s r hr
    by_cases h : cfg.chunk_length_pad < s.features.length
    · simp only [chunkLoop, h, if_true] at hr
      rcases List.mem_cons.mp hr with h1 | h1
      · subst h1
        rfl
      · exact ih _ r h1
    · simp [chunkLoop, h] at hr

/-- The chunk-check loop's messages chain the frame cursor forward, one
chunk per message. -/
theorem chunkLoop_chain (cfg : Config) (cb : Collab) :
    ∀ (fuel : Nat) (s : Stream),
      recChain cfg s.frame_offset (chunkLoop cfg cb fuel s).2.recs
        (chunkLoop cfg cb fuel s).1.frame_offset := by
  intro fuel
  induction fuel with
  | zero =>
    intro s
    simp [chunkLoop, recChain]
  | succ n ih =>
    intro s
    by_cases h : cfg.chunk_length_pad < s.features.length
    · simp only [chunkLoop, h, if_true]
      refine ⟨?_, ?_, ?_⟩
      · rw [endpoint_detected_offset]
        simp [decodeCycle]
      · rw [endpoint_detected_offset]
        rfl
      · exact ih (endpoint_detected cb (decodeCycle cfg s)).2
    · simp [chunkLoop, h, recChain]

/-- The drain decode loop exits with at most `chunk_length_pad` buffered
frames, provided the fuel covers the current buffer length. -/
theorem drainLoopW_features_le (cfg : Config) (hcl : 0 < cfg.chunk_length) :
    ∀ (fuel : Nat) (s : Stream), s.features.length ≤ fuel →
      (drainLoopW cfg fuel s).1.features.length ≤ cfg.chunk_length_pad := by
  intro fuel
  induction fuel with
  | zero =>
    intro s hs
    simp only [drainLoopW]
    omega
  | succ n ih =>
    intro s hs
    by_cases h : cfg.chunk_length_pad < s.features.length
    · simp only [drainLoopW, h, if_true]
      apply ih
      simp only [decodeCycle, List.length_drop]
      omega
    · simp only [drainLoopW, h, if_false]
      omega

/-- Every `compute_and_decode` issued by the drain decode loop is on a
stream whose buffer strictly exceeds `chunk_length_pad`. -/
theorem drainLoopW_enqs_big (cfg : Config) :
    ∀ (fuel : Nat) (s : Stream), ∀ t ∈ (drainLoopW cfg fuel s).2,
      cfg.chunk_length_pad < t.features.length := by
  intro fuel
  induction fuel with
  | zero =>
    intro s t ht
    simp [drainLoopW] at ht
  | succ n ih =>
    intro s t ht
    by_cases h : cfg.chunk_length_pad < s.features.length
    · simp only [drainLoopW, h, if_true] at ht
      rcases List.mem_cons.mp ht with h1 | h1
      · subst h1
        exact h
      · exact ih _ t h1
    · simp [drainLoopW, h] at ht

/-- The drain decode loop advances the frame cursor by one chunk per
iteration. -/
theorem drainLoopW_offset (cfg : Config) :
    ∀ (fuel : Nat) (s : Stream),
      (drainLoopW cfg fuel s).1.frame_offset
        = s.frame_offset + (drainLoopW cfg fuel s).2.length * cfg.chunk_size := by
  intro fuel
  induction fuel with
  | zero =>
    intro s
    simp [drainLoopW]
  | succ n ih =>
    intro s
    by_cases h : cfg.chunk_length_pad < s.features.length
    · simp only [drainLoopW, h, if_true, List.length_cons]
      rw [ih (decodeCycle cfg s)]
      simp only [decodeCycle]
      ring
    · simp [drainLoopW, h]

/-- A stream already at or below the threshold passes through the drain
decode loop untouched. -/
theorem drainLoopW_no_iter (cfg : Config) (fuel : Nat) (s : Stream)
    (h : s.features.length ≤ cfg.chunk_length_pad) :
    drainLoopW cfg fuel s = (s, []) := by
  cases fuel with
  | zero => rfl
  | succ n => simp [drainLoopW, not_lt.mpr h]

/-- Behaviour of the tail-padding step on a stream at or below the
threshold. -/
theorem drainPad_spec (cfg : Config) (t : Stream)
    (hle : t.features.length ≤ cfg.chunk_length_pad) :
    (drainPad cfg t).1.features = []
    ∧ (drainPad cfg t).1.frame_offset
        = t.frame_offset + (drainPad cfg t).2.length * cfg.chunk_size
    ∧ (drainPad cfg t).2.length ≤ 1
    ∧ (0 < t.features.length →
        (drainPad cfg t).2.length = 1
        ∧ (add_tail_paddings (cfg.chunk_length_pad - t.features.length) t).features.length
            = cfg.chunk_length_pad
        ∧ (drainPad cfg t).2
            = [add_tail_paddings (cfg.chunk_length_pad - t.features.length) t])
    ∧ (t.features.length = 0 → (drainPad cfg t).2 = []) := by
  by_cases h : 0 < t.features.length
  · refine ⟨?_, ?_, ?_, ?_, ?_⟩
    · simp [drainPad, h]
    · simp [drainPad, h, decodeCycle, add_tail_paddings]
    · simp [drainPad, h]
    · intro _
      refine ⟨by simp [drainPad, h], ?_, by simp [drainPad, h]⟩
      simp only [add_tail_paddings, List.length_append, List.length_replicate]
      omega
    · intro h0
      omega
  · have h0 : t.features.length = 0 := by omega
    have hnil : t.features = [] := List.length_eq_zero.mp h0
    refine ⟨?_, ?_, ?_, ?_, ?_⟩
    · simp [drainPad, h, hnil]
    · simp [drainPad, h]
    · simp [drainPad, h]
    · intro hc
      omega
    · intro _
      simp [drainPad, h]

/-- Frame-cursor chains compose along concatenated message logs. -/
theorem recChain_append (cfg : Config) :
    ∀ (l1 : List MsgRec) (o o1 o2 : Nat) (l2 : List MsgRec),
      recChain cfg o l1 o1 → recChain cfg o1 l2 o2 →
      recChain cfg o (l1 ++ l2) o2 := by
  intro l1
  induction l1 with
  | nil =>
    intro o o1 o2 l2 h1 h2
    simp only [recChain] at h1
    subst h1
    simpa using h2
  | cons r rest ih =>
    intro o o1 o2 l2 h1 h2
    obtain ⟨a, b, c⟩ := h1
    exact ⟨a, b, ih _ _ _ _ c h2⟩

/-- Along a frame-cursor chain, every message carries the cursor scaled by
the subsampling factor. -/
theorem recChain_mem_scaled (cfg : Config) :
    ∀ (l : List MsgRec) (o o' : Nat), recChain cfg o l o' →
      ∀ r ∈ l, r.msg.frame_offset = r.state.frame_offset * cfg.subsampling_factor := by
  intro l
  induction l with
  | nil =>
    intro o o' _ r hr
    simp at hr
  | cons x rest ih =>
    intro o o' h r hr
    obtain ⟨a, b, c⟩ := h
    rcases List.mem_cons.mp hr with h1 | h1
    · subst h1
      exact b
    · exact ih _ _ c r h1

/-- Along a frame-cursor chain, consecutive messages advance the emitted
offset by exactly `nDecodes` chunks of before-subsampling frames. -/
theorem recChain_chain_exact (cfg : Config) :
    ∀ (l : List MsgRec) (o o' : Nat), recChain cfg o l o' →
      List.Chain' (fun a b =>
        b.msg.frame_offset = a.msg.frame_offset + b.nDecodes * cfg.chunk_length) l := by
  intro l
  induction l with
  | nil =>
    intro o o' _
    exact List.chain'_nil
  | cons x rest ih =>
    intro o o' h
    obtain ⟨a, b, c⟩ := h
    cases rest with
    | nil => simp
    | cons y t =>
      obtain ⟨d, e, f⟩ := c
      rw [List.chain'_cons]
      constructor
      · rw [e, d, b, Config.chunk_length]
        ring
      · exact ih _ _ ⟨d, e, f⟩

/-- Exact chunk advance implies the emitted offsets are non-decreasing. -/
theorem chain_exact_mono (cfg : Config) (l : List MsgRec)
    (h : List.Chain' (fun a b =>
      b.msg.frame_offset = a.msg.frame_offset + b.nDecodes * cfg.chunk_length) l) :
    List.Chain' (fun a b => a.msg.frame_offset ≤ b.msg.frame_offset) l :=
  h.imp (fun a b hab => by rw [hab]; exact Nat.le_add_right _ _)

/-- Invariant of the receiving phase: starting at or below the threshold it
stays at or below the threshold, its message log chains the frame cursor
with one decode per message, and every enqueue carries at least
`chunk_length_pad` buffered frames. -/
theorem receiveLoop_inv (cfg : Config) (cb : Collab) (hcl : 0 < cfg.chunk_length) :
    ∀ (audio : List (List Int)) (s : Stream),
      s.features.length ≤ cfg.chunk_length_pad →
      (receiveLoop cfg cb audio s).1.features.length ≤ cfg.chunk_length_pad
      ∧ recChain cfg s.frame_offset (receiveLoop cfg cb audio s).2.recs
          (receiveLoop cfg cb audio s).1.frame_offset
      ∧ (∀ r ∈ (receiveLoop cfg cb audio s).2.recs, r.nDecodes = 1)
      ∧ (∀ t ∈ (receiveLoop cfg cb audio s).2.enqs,
          cfg.chunk_length_pad ≤ t.features.length) := by
  intro audio
  induction audio with
  | nil =>
    intro s hs
    refine ⟨hs, ?_, ?_, ?_⟩ <;> simp [receiveLoop, recChain]
  | cons frames audio ih =>
    intro s hs
    have hc1 := chunkLoop_features_le cfg cb hcl
      (accept_waveform frames s).features.length (accept_waveform frames s) le_rfl
    have hcc := chunkLoop_chain cfg cb
      (accept_waveform frames s).features.length (accept_waveform frames s)
    have hcn := chunkLoop_nDecodes cfg cb
      (accept_waveform frames s).features.length (accept_waveform frames s)
    have hce := chunkLoop_enqs_big cfg cb
      (accept_waveform frames s).features.length (accept_waveform frames s)
    obtain ⟨i1, i2, i3, i4⟩ := ih
      (chunkLoop cfg cb (accept_waveform frames s).features.length
        (accept_waveform frames s)).1 hc1
    refine ⟨?_, ?_, ?_, ?_⟩
    · simpa [receiveLoop] using i1
    · simp only [receiveLoop]
      refine recChain_append cfg _ _ _ _ _ ?_ i2
      have hoff : (accept_waveform frames s).frame_offset = s.frame_offset := rfl
      rw [← hoff]
      exact hcc
    · simp only [receiveLoop]
      intro r hr
      rcases List.mem_append.mp hr with h1 | h1
      · exact hcn r h1
      · exact i3 r h1
    · simp only [receiveLoop]
      intro t ht
      rcases List.mem_append.mp ht with h1 | h1
      · exact le_of_lt (hce t h1)
      · exact i4 t h1

/-- Starting at or below the threshold, the drain phase skips the drain
decode loop, so its single final message advances the cursor by the
tail-padding decode only (zero or one chunk), and every drain enqueue
carries at least `chunk_length_pad` buffered frames. -/
theorem drainPhase_inv (cfg : Config) (cb : Collab) (t : Stream)
    (hle : t.features.length ≤ cfg.chunk_length_pad) :
    recChain cfg t.frame_offset (drainPhase cfg cb t).2.recs
        (drainPhase cfg cb t).1.frame_offset
    ∧ (∀ r ∈ (drainPhase cfg cb t).2.recs, r.nDecodes ≤ 1)
    ∧ (∀ x ∈ (drainPhase cfg cb t).2.enqs,
        cfg.chunk_length_pad ≤ x.features.length) := by
  have hle0 : (input_finished t).features.length ≤ cfg.chunk_length_pad := hle
  have hw := drainLoopW_no_iter cfg (input_finished t).features.length
    (input_finished t) hle0
  obtain ⟨p1, p2, p3, p4, p5⟩ := drainPad_spec cfg (input_finished t) hle0
  have hoff : (input_finished t).frame_offset = t.frame_offset := rfl
  refine ⟨?_, ?_, ?_⟩
  · simp only [drainPhase, hw, List.length_nil, List.nil_append, Nat.zero_add]
    refine ⟨?_, rfl, rfl⟩
    rw [p2, hoff]
  · simp only [drainPhase, hw, List.length_nil, List.nil_append, Nat.zero_add]
    intro r hr
    rcases List.mem_singleton.mp hr with rfl
    simpa using p3
  · simp only [drainPhase, hw, List.nil_append]
    intro x hx
    by_cases h0 : 0 < (input_finished t).features.length
    · obtain ⟨q1, q2, q3⟩ := p4 h0
      rw [q3] at hx
      rcases List.mem_singleton.mp hx with rfl
      rw [q2]
    · have hz : (input_finished t).features.length = 0 := by omega
      rw [p5 hz] at hx
      simp at hx

/-- C7: every outbound message carries `frame_offset` equal to the stream's
consumed-frame count times the subsampling factor; across one session the
emitted offsets are non-decreasing and advance by exactly one chunk's worth
of before-subsampling frames per decode-cycle message (the final message
advances by one chunk when the tail-padding decode ran, else by zero and is
not a decode-cycle message). -/
theorem frame_offset_monotone_chunk_advance (cfg : Config) (cb : Collab)
    (audio : List (List Int)) (h1 : 0 < cfg.chunk_size)
    (h2 : 0 < cfg.subsampling_factor) :
    (∀ r ∈ runRecs cfg cb audio,
        r.msg.frame_offset = r.state.frame_offset * cfg.subsampling_factor
        ∧ r.nDecodes ≤ 1)
    ∧ List.Chain' (fun a b =>
        b.msg.frame_offset = a.msg.frame_offset + b.nDecodes * cfg.chunk_length)
        (runRecs cfg cb audio)
    ∧ List.Chain' (fun a b => a.msg.frame_offset ≤ b.msg.frame_offset)
        (runRecs cfg cb audio) := by
  have hcl : 0 < cfg.chunk_length := Nat.mul_pos h1 h2
  obtain ⟨i1, i2, i3, i4⟩ := receiveLoop_inv cfg cb hcl audio Stream.init
    (by simp [Stream.init])
  obtain ⟨d1, d2, d3⟩ := drainPhase_inv cfg cb
    (receiveLoop cfg cb audio Stream.init).1 i1
  have hsplit : runRecs cfg cb audio
      = (receiveLoop cfg cb audio Stream.init).2.recs
        ++ (drainPhase cfg cb (receiveLoop cfg cb audio Stream.init).1).2.recs := rfl
  have hchain : recChain cfg Stream.init.frame_offset (runRecs cfg cb audio)
      (drainPhase cfg cb (receiveLoop cfg cb audio Stream.init).1).1.frame_offset := by
    rw [hsplit]
    exact recChain_append cfg _ _ _ _ _ i2 d1
  have hexact := recChain_chain_exact cfg _ _ _ hchain
  refine ⟨?_, hexact, chain_exact_mono cfg _ hexact⟩
  intro r hr
  refine ⟨recChain_mem_scaled cfg _ _ _ hchain r hr, ?_⟩
  rw [hsplit] at hr
  rcases List.mem_append.mp hr with hm | hm
  · exact le_of_eq (i3 r hm)
  · exact d2 r hm

/-- Witness for C7 on a concrete run: two audio messages of three frames
and one frame against a threshold of two. -/
theorem frame_offset_monotone_chunk_advance_witness :
    0 < cfgT.chunk_size ∧ 0 < cfgT.subsampling_factor
    ∧ ((∀ r ∈ runRecs cfgT cbTest [[1, 2, 3], [4]],
          r.msg.frame_offset = r.state.frame_offset * cfgT.subsampling_factor
          ∧ r.nDecodes ≤ 1)
        ∧ List.Chain' (fun a b =>
            b.msg.frame_offset = a.msg.frame_offset + b.nDecodes * cfgT.chunk_length)
            (runRecs cfgT cbTest [[1, 2, 3], [4]])
        ∧ List.Chain' (fun a b => a.msg.frame_offset ≤ b.msg.frame_offset)
            (runRecs cfgT cbTest [[1, 2, 3], [4]])) :=
  ⟨by decide, by decide,
    frame_offset_monotone_chunk_advance cfgT cbTest [[1, 2, 3], [4]]
      (by decide) (by decide)⟩

/-- C8: in a full handler run, every stream handed to `compute_and_decode`
(and hence every stream the scheduler dequeues, since the suspended handler
cannot mutate it in between) satisfies the scheduler's assertion of at least
`chunk_length_pad` buffered feature frames. -/
theorem decode_requests_have_enough_features (cfg : Config) (cb : Collab)
    (audio : List (List Int)) (h1 : 0 < cfg.chunk_size)
    (h2 : 0 < cfg.subsampling_factor) :
    ∀ t ∈ runEnqs cfg cb audio, cfg.chunk_length_pad ≤ t.features.length := by
  have hcl : 0 < cfg.chunk_length := Nat.mul_pos h1 h2
  obtain ⟨i1, -, -, i4⟩ := receiveLoop_inv cfg cb hcl audio Stream.init
    (by simp [Stream.init])
  obtain ⟨-, -, d3⟩ := drainPhase_inv cfg cb
    (receiveLoop cfg cb audio Stream.init).1 i1
  have hsplit : runEnqs cfg cb audio
      = (receiveLoop cfg cb audio Stream.init).2.enqs
        ++ (drainPhase cfg cb (receiveLoop cfg cb audio Stream.init).1).2.enqs := rfl
  rw [hsplit]
  intro t ht
  rcases List.mem_append.mp ht with hm | hm
  · exact i4 t hm
  · exact d3 t hm

/-- Witness for C8 on the same concrete run as C7. -/
theorem decode_requests_have_enough_features_witness :
    0 < cfgT.chunk_size ∧ 0 < cfgT.subsampling_factor
    ∧ (∀ t ∈ runEnqs cfgT cbTest [[1, 2, 3], [4]],
        cfgT.chunk_length_pad ≤ t.features.length) :=
  ⟨by decide, by decide,
    decode_requests_have_enough_features cfgT cbTest [[1, 2, 3], [4]]
      (by decide) (by decide)⟩

/-- C6: after `"Done"`, the handler issues decode cycles only while the
buffer exceeds `chunk_length_pad`; if frames remain it pads with trailing
zero frames to exactly `chunk_length_pad` and issues exactly one more decode
cycle (none when the buffer is empty); the feature buffer ends empty; and
exactly one last message is sent whose `final` field is `true`
unconditionally, whatever the endpoint policy. -/
theorem drain_phase_final (cfg : Config) (cb : Collab) (s : Stream)
    (h1 : 0 < cfg.chunk_size) (h2 : 0 < cfg.subsampling_factor) :
    (drainPhase cfg cb s).1.features = []
    ∧ ((drainPhase cfg cb s).2.recs.map fun r => r.msg.final) = [true]
    ∧ (∀ t ∈ (drainLoopW cfg (input_finished s).features.length
          (input_finished s)).2,
        cfg.chunk_length_pad < t.features.length)
    ∧ (drainLoopResult cfg s).features.length ≤ cfg.chunk_length_pad
    ∧ (0 < (drainLoopResult cfg s).features.length →
        (add_tail_paddings
            (cfg.chunk_length_pad - (drainLoopResult cfg s).features.length)
            (drainLoopResult cfg s)).features.length = cfg.chunk_length_pad
        ∧ (drainPad cfg (drainLoopResult cfg s)).2.length = 1)
    ∧ ((drainLoopResult cfg s).features.length = 0 →
        (drainPad cfg (drainLoopResult cfg s)).2 = []) := by
  have hcl : 0 < cfg.chunk_length := Nat.mul_pos h1 h2
  have hwle : (drainLoopResult cfg s).features.length ≤ cfg.chunk_length_pad :=
    drainLoopW_features_le cfg hcl _ _ le_rfl
  obtain ⟨p1, p2, p3, p4, p5⟩ := drainPad_spec cfg (drainLoopResult cfg s) hwle
  refine ⟨p1, ?_, drainLoopW_enqs_big cfg _ _, hwle, ?_, p5⟩
  · simp [drainPhase, mkMessage]
  · intro h0
    exact ⟨(p4 h0).2.1, (p4 h0).1⟩

/-- Witness for C6 on a concrete three-frame stream against a threshold of
two: one drain decode cycle runs, then a padded final decode. -/
theorem drain_phase_final_witness :
    0 < cfgT.chunk_size ∧ 0 < cfgT.subsampling_factor
    ∧ ((drainPhase cfgT cbTest sT).1.features = []
        ∧ ((drainPhase cfgT cbTest sT).2.recs.map fun r => r.msg.final) = [true]
        ∧ (∀ t ∈ (drainLoopW cfgT (input_finished sT).features.length
              (input_finished sT)).2,
            cfgT.chunk_length_pad < t.features.length)
        ∧ (drainLoopResult cfgT sT).features.length ≤ cfgT.chunk_length_pad
        ∧ (0 < (drainLoopResult cfgT sT).features.length →
            (add_tail_paddings
                (cfgT.chunk_length_pad - (drainLoopResult cfgT sT).features.length)
                (drainLoopResult cfgT sT)).features.length = cfgT.chunk_length_pad
            ∧ (drainPad cfgT (drainLoopResult cfgT sT)).2.length = 1)
        ∧ ((drainLoopResult cfgT sT).features.length = 0 →
            (drainPad cfgT (drainLoopResult cfgT sT)).2 = [])) :=
  ⟨by decide, by decide,
    drain_phase_final cfgT cbTest sT (by decide) (by decide)⟩

end Sherpa
